import Mathlib

/-!
Shallow embedding of the retrieval-and-reranking engine of the `git_rag`
repository (files `app/rag/retrieve.py`, `app/rag/answer.py`,
`app/rag/vectorstore.py`), together with theorems settling the spec claims.

Python strings are modelled as Lean `String` (a list of unicode code points,
matching Python `len` and indexing semantics); Python `str.lower`/`str.upper`
are modelled character-wise (the repository handles ASCII input).  The external
FAISS vector store is modelled as an opaque search function that may fail with
an index-unavailable error (`Except`), matching how `retrieve.py` treats it.
-/

set_option linter.unusedVariables false

namespace GitRag

/-- Bool test that `p` is a leading run of `s` (character lists). -/
def isPreOf : List Char → List Char → Bool
  | [], _ => true
  | _ :: _, [] => false
  | a :: ns, b :: hs => a == b && isPreOf ns hs

/-- Python substring test `needle in haystack`, over character lists:
true iff `n` occurs contiguously inside `h` (the empty list occurs in
everything, as in Python). -/
def subList (n : List Char) : List Char → Bool
  | [] => n.isEmpty
  | c :: rest => isPreOf n (c :: rest) || subList n rest

/-- Python `needle in haystack` on strings. -/
def pyIn (needle haystack : String) : Bool :=
  subList needle.data haystack.data

/-- Python `str.lower` (ASCII case mapping, as used throughout the repo). -/
def pyLower (s : String) : String := ⟨s.data.map Char.toLower⟩

/-- Python `str.upper` (ASCII case mapping). -/
def pyUpper (s : String) : String := ⟨s.data.map Char.toUpper⟩

/-- Python `str.startswith` on strings. -/
def pyStartsWith (s pre : String) : Bool := isPreOf pre.data s.data

/-- Generic first-occurrence deduplication with an accumulator of already-seen
keys; `dedupByAux key [] xs` is the Python walk-and-remember pattern, used both
by `dict.fromkeys` in `expand_query` and by the `seen` set in
`deduplicate_documents`. -/
def dedupByAux {α κ : Type} [DecidableEq κ] (key : α → κ) (seen : List κ) :
    List α → List α
  | [] => []
  | x :: xs =>
    if key x ∈ seen then dedupByAux key seen xs
    else x :: dedupByAux key (key x :: seen) xs

/-- A retrieved chunk, i.e. a langchain `Document` as the retrieval engine
reads it: `page_content` plus the metadata fields `retrieve.py` consults
(`metadata.get` yields `None` for a missing field, hence `Option`). -/
structure Passage where
  page_content : String
  source : Option String
  command : Option String
  «section» : Option String
  chunk_index : Option Nat

deriving instance DecidableEq for Passage

namespace Answer

/-- `detect_intent` from `app/rag/answer.py` (lines 48-60): comparison words
are checked first, then `startswith` checks for why/how/what. -/
def detect_intent (question : String) : String :=
  let q := pyLower question
  if ["difference", "compare", "vs"].any (fun w => pyIn w q) then "comparison"
  else if pyStartsWith q "why" then "reasoning"
  else if pyStartsWith q "how" then "procedural"
  else if pyStartsWith q "what" then "definition"
  else "general"

end Answer

namespace Retrieve

/-- `SEARCH_K_PER_QUERY` from `retrieve.py`. -/
def SEARCH_K_PER_QUERY : Nat := 6

/-- `FINAL_TOP_K` from `retrieve.py`. -/
def FINAL_TOP_K : Nat := 6

/-- `MMR_LAMBDA` from `retrieve.py` (the float 0.7, modelled as a rational). -/
def MMR_LAMBDA : ℚ := (0.7 : ℚ)

/-- The `INTENT_SECTION_PRIORITY` dict from `retrieve.py`, as a partial map
from intent label to section list. -/
def INTENT_SECTION_PRIORITY (intent : String) : Option (List String) :=
  if intent == "DEFINITION" then some ["NAME", "INTRO"]
  else if intent == "HOW" then some ["DESCRIPTION", "OPTIONS", "EXAMPLES"]
  else if intent == "WHY" then some ["NOTES", "DESCRIPTION"]
  else if intent == "COMPARE" then some ["DESCRIPTION", "NOTES"]
  else if intent == "GENERAL" then some ["DESCRIPTION", "INTRO", "OPTIONS"]
  else none

/-- `detect_intent` from `app/rag/retrieve.py` (lines 32-44): substring checks
in the order DEFINITION, HOW, WHY, COMPARE; first match wins. -/
def detect_intent (query : String) : String :=
  let q := pyLower query
  if ["what is", "what does", "define", "meaning of"].any (fun w => pyIn w q) then
    "DEFINITION"
  else if ["how", "how to", "works", "do i"].any (fun w => pyIn w q) then "HOW"
  else if ["why", "when", "should"].any (fun w => pyIn w q) then "WHY"
  else if ["difference", "compare", "vs"].any (fun w => pyIn w q) then "COMPARE"
  else "GENERAL"

/-- Whitespace characters recognised by the Python regex `\s` (ASCII). -/
def isRegexSpace (c : Char) : Bool :=
  c == ' ' || c == '\t' || c == '\n' || c == '\r' || c == '\x0b' || c == '\x0c'

/-- Characters matched by the `[a-z\-]` class in `extract_git_command`. -/
def isCmdChar (c : Char) : Bool :=
  (decide ('a' ≤ c) && decide (c ≤ 'z')) || c == '-'

/-- Attempt to match the regex `git\s+([a-z\-]+)` at the head of `s`,
returning the captured group. -/
def matchGitAt : List Char → Option (List Char)
  | 'g' :: 'i' :: 't' :: rest =>
    if (rest.takeWhile isRegexSpace).isEmpty then none
    else
      let cmd := (rest.dropWhile isRegexSpace).takeWhile isCmdChar
      if cmd.isEmpty then none else some cmd
  | _ => none

/-- Leftmost match of the regex `git\s+([a-z\-]+)` (Python `re.search`
semantics: try each start position left to right). -/
def searchGit : List Char → Option (List Char)
  | [] => none
  | c :: rest =>
    match matchGitAt (c :: rest) with
    | some r => some r
    | none => searchGit rest

/-- `extract_git_command` from `retrieve.py` (lines 27-29). -/
def extract_git_command (query : String) : Option String :=
  (searchGit (pyLower query).data).map (fun l => (⟨l⟩ : String))

/-- `expand_query` from `retrieve.py` (lines 51-69): the literal query first,
then command/section variants (or generic fallbacks), finally
`dict.fromkeys`-style first-occurrence deduplication. -/
def expand_query (query : String) : List String :=
  let command := extract_git_command query
  let intent := detect_intent query
  let expanded :=
    match command with
    | some command =>
      [query, "git " ++ command, "Git Command: " ++ command] ++
        ((INTENT_SECTION_PRIORITY intent).getD []).map
          (fun sec => "Git Command: " ++ command ++ " Section: " ++ sec)
    | none => [query, "Git version control system", "Git distributed version control"]
  dedupByAux id [] expanded

/-- The dedup key of `deduplicate_documents`: the metadata triple
`(command, section, chunk_index)` exactly as `metadata.get` returns it. -/
def dedupKey (doc : Passage) : Option String × Option String × Option Nat :=
  (doc.command, doc.«section», doc.chunk_index)

/-- `deduplicate_documents` from `retrieve.py` (lines 76-90): walk the pool in
order, keep the first Passage per dedup key. -/
def deduplicate_documents (docs : List Passage) : List Passage :=
  dedupByAux dedupKey [] docs

/-- Characters matched by the Python regex `\w` (ASCII): alphanumerics and
underscore. -/
def isWordChar (c : Char) : Bool := c.isAlphanum || c == '_'

/-- Split a character list into its maximal runs of characters satisfying
`keep` (the accumulator holds the current run reversed). -/
def tokensByAux (keep : Char → Bool) : List Char → List Char → List (List Char)
  | [], cur => if cur.isEmpty then [] else [cur.reverse]
  | c :: rest, cur =>
    if keep c then tokensByAux keep rest (c :: cur)
    else if cur.isEmpty then tokensByAux keep rest []
    else cur.reverse :: tokensByAux keep rest []

/-- Maximal runs of characters satisfying `keep`, as strings. -/
def tokensBy (keep : Char → Bool) (s : String) : List String :=
  (tokensByAux keep s.data []).map (fun l => (⟨l⟩ : String))

/-- The `qtokens` of `rerank_results`: `set(re.findall(r"\w+", query.lower()))`.
The Python set is modelled as a first-occurrence-deduplicated list; its only
uses (`any` and a sum over the set) are order-independent. -/
def qtokensOf (query : String) : List String :=
  dedupByAux id [] (tokensBy isWordChar (pyLower query))

/-- The per-document score of `rerank_results` (lines 103-129): position
prior, section-priority bonus, command-substring bonus, per-token content
bonus, long-chunk penalty, summed exactly as the sequence of `score +=`
statements. -/
def scoreDoc (qtokens : List String) (preferred : List String) (idx : Nat)
    (doc : Passage) : Int :=
  let cmd := pyLower (doc.command.getD "")
  let sec := pyUpper ((doc.«section»).getD "")
  let content := pyLower doc.page_content
  let length := doc.page_content.data.length
  max 0 (20 - (idx : Int))
    + (if preferred.contains sec then 15 else 0)
    + (if qtokens.any (fun t => pyIn t cmd) then 10 else 0)
    + ((qtokens.countP (fun t => pyIn t content) : Int))
    + (if 1500 < length then -5 else 0)

/-- The `scored` list of `rerank_results`: each pool element paired with its
score, in pool order (`enumerate`). -/
def scoredPool (results : List Passage) (query : String) (intent : String) :
    List (Int × Passage) :=
  let qtokens := qtokensOf query
  let preferred := (INTENT_SECTION_PRIORITY intent).getD []
  results.enum.map (fun p => (scoreDoc qtokens preferred p.1 p.2, p.2))

/-- Ordering used by `scored.sort(key=lambda x: x[0], reverse=True)`:
descending by score.  Python `list.sort` is a stable sort, which is exactly
`List.insertionSort` with this relation (ties keep the earlier element
first). -/
def scoreGE (a b : Int × Passage) : Prop := b.1 ≤ a.1

instance : DecidableRel scoreGE :=
  fun a b => inferInstanceAs (Decidable (b.1 ≤ a.1))

instance : IsTotal (Int × Passage) scoreGE :=
  ⟨fun a b => le_total b.1 a.1⟩

instance : IsTrans (Int × Passage) scoreGE :=
  ⟨fun _ _ _ h1 h2 => le_trans h2 h1⟩

/-- `rerank_results` from `retrieve.py` (lines 97-132): score each pool
element, stable-sort descending by score, return the passages. -/
def rerank_results (results : List Passage) (query : String) (intent : String) :
    List Passage :=
  (List.insertionSort scoreGE (scoredPool results query intent)).map Prod.snd

/-- Failure taxonomy of the external vector index as the engine sees it. -/
inductive VSError where
  | indexUnavailable

deriving instance DecidableEq for VSError

/-- The external FAISS handle, reduced to the one capability `retrieve.py`
uses: `max_marginal_relevance_search(q, k=…, lambda_mult=…)`, which may fail
with an index-unavailable error. -/
def VStore : Type :=
  String → Nat → ℚ → Except VSError (List Passage)

/-- The fetch loop of `retrieve_documents` (lines 145-153): one search per
expanded query, results concatenated in query order; an index failure aborts
the loop and propagates. -/
def fetchAll (store : VStore) : List String → Except VSError (List Passage)
  | [] => .ok []
  | q :: qs =>
    match store q SEARCH_K_PER_QUERY MMR_LAMBDA with
    | .error e => .error e
    | .ok hits =>
      match fetchAll store qs with
      | .error e => .error e
      | .ok rest => .ok (hits ++ rest)

/-- `retrieve_documents` from `retrieve.py` (lines 139-158).  The
`load_vectorstore` argument is the process-wide singleton handle returned by
`vectorstore.load_vectorstore()`; the `vectorstore` argument is the caller
keyword parameter, which line 140 overwrites before first use. -/
def retrieve_documents (load_vectorstore : VStore) (query : String) (k : Nat)
    (vectorstore : Option VStore) : Except VSError (List Passage) :=
  let vectorstore := load_vectorstore
  let intent := detect_intent query
  let expanded_queries := expand_query query
  match fetchAll vectorstore expanded_queries with
  | .error e => .error e
  | .ok all_results =>
    let unique := deduplicate_documents all_results
    let reranked := rerank_results unique query intent
    .ok (reranked.take k)

end Retrieve

end GitRag

namespace GitRag

/-- The evident label correspondence between the intent labels of the
retrieval module and those of the answering module (used to compare the two
classifiers up to renaming). -/
def labelMap (s : String) : String :=
  if s == "DEFINITION" then "definition"
  else if s == "HOW" then "procedural"
  else if s == "WHY" then "reasoning"
  else if s == "COMPARE" then "comparison"
  else if s == "GENERAL" then "general"
  else s

/-- Copy of a Passage with the `command` metadata field removed; since the
reranking score reads `command` only in its subject-match bonus, comparing the score of a
Passage with its `clearCommand` score isolates that bonus. -/
def clearCommand (doc : Passage) : Passage :=
  ⟨doc.page_content, doc.source, none, doc.«section», doc.chunk_index⟩

/-- The subject-match test as the reranking section of the spec words it: the
command field of the Passage shares a whitespace-delimited token (token equality)
with the lower-cased question. -/
def sharesWsToken (question cmdField : String) : Bool :=
  (Retrieve.tokensBy (fun c => !Retrieve.isRegexSpace c) (pyLower question)).any
    (fun t =>
      (Retrieve.tokensBy (fun c => !Retrieve.isRegexSpace c) (pyLower cmdField)).contains t)

/-- Concrete Passage whose command field contains a question token as a
proper substring without sharing any whole token with the question. -/
def passageCheckout : Passage :=
  ⟨"checkout switches branches", none, some "checkout", none, some 0⟩

/-- Concrete Passage used in end-to-end evaluations. -/
def passageRebase : Passage :=
  ⟨"git rebase reapplies commits on top of another base", none, some "rebase",
    some "DESCRIPTION", some 0⟩

/-- Vector store stub whose every search fails (index unavailable). -/
def storeFail : Retrieve.VStore := fun _ _ _ => .error .indexUnavailable

/-- Vector store stub whose every search succeeds with no hits. -/
def storeEmpty : Retrieve.VStore := fun _ _ _ => .ok []

/-- Vector store stub returning one fixed Passage for every search. -/
def storeRebase : Retrieve.VStore := fun _ _ _ => .ok [passageRebase]

-- Sanity examples for the query-understanding embedding.
example : Retrieve.detect_intent "How to compare two branches" = "HOW" := by decide
example : Answer.detect_intent "How to compare two branches" = "comparison" := by decide
example : Retrieve.extract_git_command "Explain git rebase" = some "rebase" := by decide
example : Retrieve.extract_git_command "What is Git?" = none := by decide
example :
    Retrieve.expand_query "What is Git?" =
      ["What is Git?", "Git version control system", "Git distributed version control"] := by
  decide

example : Retrieve.qtokensOf "How to compare, to COMPARE!" = ["how", "to", "compare"] := by
  decide

example :
    Retrieve.scoreDoc ["rebase", "work"] ["DESCRIPTION"] 2
      ⟨"rebase moves work onto a new base", none, some "rebase", some "description", some 0⟩ =
      18 + 15 + 10 + 2 := by
  decide

example :
    Retrieve.rerank_results
      [⟨"alpha", none, some "merge", none, some 0⟩,
       ⟨"beta", none, some "rebase", none, some 1⟩]
      "explain rebase" "GENERAL" =
      [⟨"beta", none, some "rebase", none, some 1⟩,
       ⟨"alpha", none, some "merge", none, some 0⟩] := by
  decide

example :
    Retrieve.retrieve_documents (fun _ _ _ => .error .indexUnavailable) "What is Git?" 6 none =
      .error .indexUnavailable := by
  rfl

example :
    Retrieve.retrieve_documents (fun _ _ _ => .ok []) "What is Git?" 6 none = .ok [] := by
  rfl

/-! Generic lemmas about first-occurrence deduplication. -/

theorem dedupByAux_sublist {α κ : Type} [DecidableEq κ] (key : α → κ)
    (seen : List κ) (xs : List α) : (dedupByAux key seen xs).Sublist xs := by
  induction xs generalizing seen with
  | nil => simp [dedupByAux]
  | cons x xs ih =>
    simp only [dedupByAux]
    split
    · exact (ih seen).cons x
    · exact (ih _).cons₂ x

theorem filter_dedupByAux {α κ : Type} [DecidableEq κ] (key : α → κ)
    (seen : List κ) (xs : List α) (k : κ) :
    (dedupByAux key seen xs).filter (fun a => decide (key a = k)) =
      if k ∈ seen then [] else (xs.filter (fun a => decide (key a = k))).take 1 := by
  induction xs generalizing seen with
  | nil => simp [dedupByAux]
  | cons x xs ih =>
    simp only [dedupByAux]
    by_cases hx : key x ∈ seen
    · rw [if_pos hx, ih]
      by_cases hk : k ∈ seen
      · simp [hk]
      · have hne : ¬ key x = k := fun h => hk (h ▸ hx)
        simp [hk, List.filter_cons, hne]
    · rw [if_neg hx]
      by_cases hxk : key x = k
      · have hk : k ∉ seen := fun h => hx (hxk ▸ h)
        rw [List.filter_cons_of_pos (by simpa using hxk), ih]
        rw [if_pos (by simp [hxk]), if_neg hk,
          List.filter_cons_of_pos (by simpa using hxk)]
        simp
      · rw [List.filter_cons_of_neg (by simpa using hxk), ih]
        by_cases hk : k ∈ seen
        · simp [hk, hxk]
        · have hkx : k ∉ (key x :: seen) := by
            intro h
            rcases List.mem_cons.mp h with h1 | h2
            · exact hxk h1.symm
            · exact hk h2
          rw [if_neg hkx, if_neg hk,
            List.filter_cons_of_neg (by simpa using hxk)]

theorem keys_dedupByAux {α κ : Type} [DecidableEq κ] (key : α → κ)
    (seen : List κ) (xs : List α) :
    ((dedupByAux key seen xs).map key).Nodup ∧
      ∀ a ∈ dedupByAux key seen xs, key a ∉ seen := by
  induction xs generalizing seen with
  | nil => simp [dedupByAux]
  | cons x xs ih =>
    by_cases hx : key x ∈ seen
    · simpa [dedupByAux, hx] using ih seen
    · have hrec := ih (key x :: seen)
      constructor
      · simp only [dedupByAux, if_neg hx, List.map_cons, List.nodup_cons]
        refine ⟨?_, hrec.1⟩
        intro hmem
        obtain ⟨b, hb, hkey⟩ := List.mem_map.mp hmem
        exact hrec.2 b hb (by simp [hkey])
      · intro a ha
        simp only [dedupByAux, if_neg hx, List.mem_cons] at ha
        rcases ha with rfl | ha
        · exact hx
        · exact fun hmem => hrec.2 a ha (List.mem_cons_of_mem _ hmem)

theorem dedupByAux_eq_self {α κ : Type} [DecidableEq κ] (key : α → κ)
    (seen : List κ) (xs : List α) (h1 : (xs.map key).Nodup)
    (h2 : ∀ a ∈ xs, key a ∉ seen) : dedupByAux key seen xs = xs := by
  induction xs generalizing seen with
  | nil => rfl
  | cons x xs ih =>
    have hx : key x ∉ seen := h2 x (List.mem_cons_self _ _)
    simp only [dedupByAux, if_neg hx]
    congr 1
    simp only [List.map_cons, List.nodup_cons] at h1
    refine ih _ h1.2 ?_
    intro a ha
    simp only [List.mem_cons, not_or]
    exact ⟨fun h => h1.1 (h ▸ List.mem_map_of_mem key ha),
      h2 a (List.mem_cons_of_mem _ ha)⟩

theorem nodup_dedupByAux_id {α : Type} [DecidableEq α] (seen : List α)
    (xs : List α) : (dedupByAux id seen xs).Nodup := by
  simpa using (keys_dedupByAux id seen xs).1

theorem dedupByAux_id_cons {α : Type} [DecidableEq α] (x : α) (xs : List α) :
    dedupByAux id [] (x :: xs) = x :: dedupByAux id [x] xs := by
  simp [dedupByAux]

/-! Generic stability lemmas about `List.insertionSort`: the sorted list
preserves the `filter` of any predicate that is constant-false past the
insertion point, hence in particular of each equal-score class. -/

theorem filter_orderedInsert_pos {α : Type} (r : α → α → Prop) [DecidableRel r]
    (p : α → Bool) (a : α) (l : List α) (ha : p a = true)
    (h : ∀ b, ¬ r a b → p b = false) :
    (List.orderedInsert r a l).filter p = a :: l.filter p := by
  induction l with
  | nil => simp [List.orderedInsert, ha]
  | cons b l ih =>
    simp only [List.orderedInsert]
    by_cases hr : r a b
    · simp [hr, List.filter_cons, ha]
    · have hb := h b hr
      simp [hr, List.filter_cons, hb, ih]

theorem filter_orderedInsert_neg {α : Type} (r : α → α → Prop) [DecidableRel r]
    (p : α → Bool) (a : α) (l : List α) (ha : p a = false) :
    (List.orderedInsert r a l).filter p = l.filter p := by
  induction l with
  | nil => simp [List.orderedInsert, ha]
  | cons b l ih =>
    simp only [List.orderedInsert]
    by_cases hr : r a b
    · simp [hr, List.filter_cons, ha]
    · by_cases hb : p b = true
      · simp [hr, List.filter_cons, hb, ih]
      · have hb' : p b = false := by simpa using hb
        simp [hr, List.filter_cons, hb', ih]

theorem filter_insertionSort {α : Type} (r : α → α → Prop) [DecidableRel r]
    (p : α → Bool) (h : ∀ a b, p a = true → ¬ r a b → p b = false)
    (l : List α) : (List.insertionSort r l).filter p = l.filter p := by
  induction l with
  | nil => rfl
  | cons b l ih =>
    simp only [List.insertionSort]
    by_cases hb : p b = true
    · rw [filter_orderedInsert_pos r p b _ hb (fun c => h b c hb), ih,
        List.filter_cons_of_pos hb]
    · have hb' : p b = false := by simpa using hb
      rw [filter_orderedInsert_neg r p b _ hb', ih,
        List.filter_cons_of_neg (by simp [hb'])]

/-! Tokens produced by `tokensByAux` are never empty (the repository call
`re.findall(r"\w+", …)` only yields non-empty matches). -/

theorem ne_nil_of_mem_tokensByAux (keep : Char → Bool) :
    ∀ (s cur : List Char) t, t ∈ Retrieve.tokensByAux keep s cur → t ≠ [] := by
  intro s
  induction s with
  | nil =>
    intro cur t ht
    by_cases hcur : cur.isEmpty = true
    · simp [Retrieve.tokensByAux, hcur] at ht
    · simp only [Retrieve.tokensByAux, if_neg hcur, List.mem_singleton] at ht
      subst ht
      have hc : cur ≠ [] := fun h => by simp [h] at hcur
      simpa [List.reverse_eq_nil_iff] using hc
  | cons c rest ih =>
    intro cur t ht
    simp only [Retrieve.tokensByAux] at ht
    by_cases hkeep : keep c = true
    · rw [if_pos hkeep] at ht
      exact ih _ t ht
    · rw [if_neg hkeep] at ht
      by_cases hcur : cur.isEmpty = true
      · rw [if_pos hcur] at ht
        exact ih _ t ht
      · rw [if_neg hcur] at ht
        rcases List.mem_cons.mp ht with rfl | ht2
        · have hc : cur ≠ [] := fun h => by simp [h] at hcur
          simpa [List.reverse_eq_nil_iff] using hc
        · exact ih _ t ht2

theorem qtokensOf_ne_empty (query : String) :
    ∀ t ∈ Retrieve.qtokensOf query, t ≠ "" := by
  intro t ht
  have hmem : t ∈ Retrieve.tokensBy Retrieve.isWordChar (pyLower query) :=
    (dedupByAux_sublist id _ _).subset ht
  obtain ⟨l, hl, rfl⟩ := List.mem_map.mp hmem
  have hne := ne_nil_of_mem_tokensByAux Retrieve.isWordChar _ _ l hl
  intro hcontra
  apply hne
  simpa using congrArg String.data hcontra

theorem pyIn_empty_haystack (t : String) (htne : t ≠ "") : pyIn t "" = false := by
  obtain ⟨l⟩ := t
  cases l with
  | nil => exact absurd rfl htne
  | cons a as => rfl

/-! Theorems settling the spec claims. -/

/-- C1 (counterexample): the question "how to compare two branches" contains
the comparison word "compare", yet the retrieval-path classifier returns
"HOW" — not its Comparison label "COMPARE" — because its HOW check runs
before its comparison check. -/
theorem retrieve_intent_comparison_not_first :
    (["difference", "compare", "vs"].any
        (fun w => pyIn w (pyLower "how to compare two branches"))) = true ∧
      Retrieve.detect_intent "how to compare two branches" = "HOW" ∧
      Retrieve.detect_intent "how to compare two branches" ≠ "COMPARE" :=
  ⟨by decide, by decide, by decide⟩

/-- C1 (amended): the answer-path classifier checks Comparison first, so any
question containing "difference"/"compare"/"vs" is classified "comparison"
even if it also starts with "how"; the retrieval-path classifier reaches its
Comparison label "COMPARE" only when none of its DEFINITION/HOW/WHY word
lists match the question. -/
theorem intent_comparison_precedence_amended :
    (∀ q, (["difference", "compare", "vs"].any (fun w => pyIn w (pyLower q))) = true →
        Answer.detect_intent q = "comparison") ∧
      (∀ q, (["difference", "compare", "vs"].any (fun w => pyIn w (pyLower q))) = true →
        (["what is", "what does", "define", "meaning of"].any
            (fun w => pyIn w (pyLower q))) = false →
        (["how", "how to", "works", "do i"].any (fun w => pyIn w (pyLower q))) = false →
        (["why", "when", "should"].any (fun w => pyIn w (pyLower q))) = false →
        Retrieve.detect_intent q = "COMPARE") := by
  constructor
  · intro q h
    simp [Answer.detect_intent, h]
  · intro q h1 h2 h3 h4
    simp [Retrieve.detect_intent, h1, h2, h3, h4]

/-- C1 (witness): concrete instantiations of both halves of the amended
precedence statement. -/
theorem intent_comparison_precedence_amended_witness :
    Answer.detect_intent "how to compare two branches" = "comparison" ∧
      Retrieve.detect_intent "difference between merge and rebase" = "COMPARE" :=
  ⟨intent_comparison_precedence_amended.1 "how to compare two branches" (by decide),
    intent_comparison_precedence_amended.2 "difference between merge and rebase"
      (by decide) (by decide) (by decide) (by decide)⟩

/-- C2 (counterexample): on "What is the difference between git merge and git
rebase?" the retrieval-path classifier and the answer-path classifier
disagree even after the evident label correspondence (DEFINITION/definition
versus comparison) — retrieval and generation do not share one
classification function. -/
theorem intent_classifiers_disagree :
    labelMap
        (Retrieve.detect_intent
          "What is the difference between git merge and git rebase?") ≠
      Answer.detect_intent
        "What is the difference between git merge and git rebase?" := by
  decide

/-- C2 (amended): retrieval and answering use two independently defined
intent classifiers, and the same question can be classified differently by
the two paths: a comparison question phrased with "What is" is DEFINITION for
retrieval but comparison for answer generation. -/
theorem intent_classifiers_split :
    Retrieve.detect_intent
        "What is the difference between git merge and git rebase?" = "DEFINITION" ∧
      Answer.detect_intent
        "What is the difference between git merge and git rebase?" = "comparison" :=
  ⟨by decide, by decide⟩

/-- C3 (counterexample): with question "out of memory" and a Passage whose
command field is "checkout", the code adds the +10 subject bonus (the
question token "out" is a substring of "checkout") although question and
command share no whitespace-delimited token, so the token-equality rule
mispredicts the computed score. -/
theorem subject_bonus_not_token_equality :
    sharesWsToken "out of memory" "checkout" = false ∧
      Retrieve.scoreDoc (Retrieve.qtokensOf "out of memory")
          ((Retrieve.INTENT_SECTION_PRIORITY "GENERAL").getD []) 0 passageCheckout ≠
        Retrieve.scoreDoc (Retrieve.qtokensOf "out of memory")
            ((Retrieve.INTENT_SECTION_PRIORITY "GENERAL").getD []) 0
            (clearCommand passageCheckout) +
          (if sharesWsToken "out of memory" "checkout" then 10 else 0) :=
  ⟨by decide, by decide⟩

/-- C3 (amended): the subject bonus adds exactly +10 when and only when some
question token (a maximal alphanumeric/underscore run of the lower-cased
question) occurs as a contiguous substring of the lower-cased command field,
and 0 otherwise: the score of every Passage equals its score with the command
field removed plus that bonus. -/
theorem subject_bonus_substring (query intent : String) (idx : Nat) (doc : Passage) :
    Retrieve.scoreDoc (Retrieve.qtokensOf query)
        ((Retrieve.INTENT_SECTION_PRIORITY intent).getD []) idx doc =
      Retrieve.scoreDoc (Retrieve.qtokensOf query)
          ((Retrieve.INTENT_SECTION_PRIORITY intent).getD []) idx (clearCommand doc) +
        (if (Retrieve.qtokensOf query).any
            (fun t => pyIn t (pyLower (doc.command.getD ""))) then 10 else 0) := by
  have hlow : pyLower "" = "" := rfl
  have h0 : ((Retrieve.qtokensOf query).any
      (fun t => pyIn t (pyLower ((none : Option String).getD "")))) = false := by
    apply List.any_eq_false.mpr
    intro t ht
    simp [hlow, pyIn_empty_haystack t (qtokensOf_ne_empty query t ht)]
  simp only [Retrieve.scoreDoc, clearCommand]
  simp only [h0, Bool.false_eq_true, if_false]
  ring

/-- C4: `expand_query` always lists the literal question first, is never
empty, and contains no duplicate strings. -/
theorem expand_query_head_nonempty_nodup (q : String) :
    (Retrieve.expand_query q).head? = some q ∧
      Retrieve.expand_query q ≠ [] ∧ (Retrieve.expand_query q).Nodup := by
  refine ⟨?_, ?_, ?_⟩
  · simp only [Retrieve.expand_query]
    split
    · rw [List.cons_append, dedupByAux_id_cons]
      rfl
    · rw [dedupByAux_id_cons]
      rfl
  · simp only [Retrieve.expand_query]
    split
    · rw [List.cons_append, dedupByAux_id_cons]
      exact List.cons_ne_nil _ _
    · rw [dedupByAux_id_cons]
      exact List.cons_ne_nil _ _
  · simp only [Retrieve.expand_query]
    exact nodup_dedupByAux_id _ _

/-- C5: `rerank_results` is a stable descending sort of the scored pool: it
returns exactly the passages of the insertion-sorted scored pool; that sorted
pool is a permutation of the scored pool, is descending in score, and within
every equal-score class keeps the original (deduplicated-pool) order. -/
theorem rerank_results_stable_sort (results : List Passage) (query intent : String) :
    Retrieve.rerank_results results query intent =
        (List.insertionSort Retrieve.scoreGE
          (Retrieve.scoredPool results query intent)).map Prod.snd ∧
      (List.insertionSort Retrieve.scoreGE
        (Retrieve.scoredPool results query intent)).Perm
        (Retrieve.scoredPool results query intent) ∧
      (List.insertionSort Retrieve.scoreGE
        (Retrieve.scoredPool results query intent)).Sorted Retrieve.scoreGE ∧
      ∀ s : Int,
        (List.insertionSort Retrieve.scoreGE
            (Retrieve.scoredPool results query intent)).filter
            (fun p => decide (p.1 = s)) =
          (Retrieve.scoredPool results query intent).filter
            (fun p => decide (p.1 = s)) := by
  refine ⟨rfl, List.perm_insertionSort _ _, List.sorted_insertionSort _ _, fun s => ?_⟩
  apply filter_insertionSort
  intro a b ha hr
  simp only [decide_eq_true_eq] at ha
  simp only [decide_eq_false_iff_not]
  intro hb
  exact hr (le_of_eq (by rw [hb, ha]))

/-- C6: `deduplicate_documents` preserves pool order (its output is a
sublist of the pool), and for every dedup key the surviving Passages with
that key are exactly the first pool element carrying it — the
smaller-original-index duplicate wins and all later ones are dropped. -/
theorem deduplicate_documents_earliest_wins (xs : List Passage) :
    (Retrieve.deduplicate_documents xs).Sublist xs ∧
      ∀ k, (Retrieve.deduplicate_documents xs).filter
          (fun d => decide (Retrieve.dedupKey d = k)) =
        (xs.filter (fun d => decide (Retrieve.dedupKey d = k))).take 1 := by
  refine ⟨dedupByAux_sublist _ _ _, fun k => ?_⟩
  simpa using filter_dedupByAux Retrieve.dedupKey [] xs k

/-- C7: `deduplicate_documents` is idempotent and never lengthens its
input. -/
theorem deduplicate_documents_idempotent (xs : List Passage) :
    Retrieve.deduplicate_documents (Retrieve.deduplicate_documents xs) =
        Retrieve.deduplicate_documents xs ∧
      (Retrieve.deduplicate_documents xs).length ≤ xs.length := by
  constructor
  · apply dedupByAux_eq_self
    · exact (keys_dedupByAux Retrieve.dedupKey [] xs).1
    · intro a _
      exact List.not_mem_nil _
  · exact (dedupByAux_sublist _ _ _).length_le

/-- C8: when the fetch stage succeeds with pool `pool`, `retrieve_documents`
returns the reranked deduplicated pool truncated to `k`: the result has
length at most `k`, and when the reranked pool has at most `k` elements the
whole pool is returned in rank order (no padding, no error). -/
theorem retrieve_documents_top_k (store : Retrieve.VStore) (query : String)
    (k : Nat) (v : Option Retrieve.VStore) (pool : List Passage)
    (h : Retrieve.fetchAll store (Retrieve.expand_query query) = .ok pool) :
    Retrieve.retrieve_documents store query k v =
        .ok ((Retrieve.rerank_results (Retrieve.deduplicate_documents pool) query
          (Retrieve.detect_intent query)).take k) ∧
      ((Retrieve.rerank_results (Retrieve.deduplicate_documents pool) query
        (Retrieve.detect_intent query)).take k).length ≤ k ∧
      ((Retrieve.rerank_results (Retrieve.deduplicate_documents pool) query
          (Retrieve.detect_intent query)).length ≤ k →
        (Retrieve.rerank_results (Retrieve.deduplicate_documents pool) query
            (Retrieve.detect_intent query)).take k =
          Retrieve.rerank_results (Retrieve.deduplicate_documents pool) query
            (Retrieve.detect_intent query)) := by
  refine ⟨?_, List.length_take_le _ _, fun hle => List.take_of_length_le hle⟩
  simp only [Retrieve.retrieve_documents, h]

/-- C8 (witness): a store answering every search with one fixed Passage; on
"What is Git?" with `k = 1` the engine returns the truncated reranked pool. -/
theorem retrieve_documents_top_k_witness :
    Retrieve.retrieve_documents storeRebase "What is Git?" 1 none =
        .ok ((Retrieve.rerank_results
          (Retrieve.deduplicate_documents [passageRebase, passageRebase, passageRebase])
          "What is Git?" (Retrieve.detect_intent "What is Git?")).take 1) ∧
      ((Retrieve.rerank_results
        (Retrieve.deduplicate_documents [passageRebase, passageRebase, passageRebase])
        "What is Git?" (Retrieve.detect_intent "What is Git?")).take 1).length ≤ 1 ∧
      ((Retrieve.rerank_results
          (Retrieve.deduplicate_documents [passageRebase, passageRebase, passageRebase])
          "What is Git?" (Retrieve.detect_intent "What is Git?")).length ≤ 1 →
        (Retrieve.rerank_results
            (Retrieve.deduplicate_documents [passageRebase, passageRebase, passageRebase])
            "What is Git?" (Retrieve.detect_intent "What is Git?")).take 1 =
          Retrieve.rerank_results
            (Retrieve.deduplicate_documents [passageRebase, passageRebase, passageRebase])
            "What is Git?" (Retrieve.detect_intent "What is Git?")) :=
  retrieve_documents_top_k storeRebase "What is Git?" 1 none
    [passageRebase, passageRebase, passageRebase] (by rfl)

theorem fetchAll_error_of_prefix (store : Retrieve.VStore) (e : Retrieve.VSError) :
    ∀ (qs1 : List String) (qe : String) (qs2 : List String),
      (∀ q1 ∈ qs1, ∃ hits,
        store q1 Retrieve.SEARCH_K_PER_QUERY Retrieve.MMR_LAMBDA = .ok hits) →
      store qe Retrieve.SEARCH_K_PER_QUERY Retrieve.MMR_LAMBDA = .error e →
      Retrieve.fetchAll store (qs1 ++ qe :: qs2) = .error e := by
  intro qs1
  induction qs1 with
  | nil =>
    intro qe qs2 _ herr
    simp [Retrieve.fetchAll, herr]
  | cons q qs1 ih =>
    intro qe qs2 hok herr
    obtain ⟨hits, hq⟩ := hok q (List.mem_cons_self _ _)
    have hrest := ih qe qs2 (fun q1 h1 => hok q1 (List.mem_cons_of_mem _ h1)) herr
    simp [Retrieve.fetchAll, hq, hrest]

/-- C9: if the search for some expanded query fails with an index error — the
earlier searches having succeeded — `retrieve_documents` propagates exactly
that error (no retry, no conversion to an empty result); and when the fetch
stage succeeds but zero unique passages survive deduplication, it returns the
empty list rather than an error. -/
theorem retrieve_documents_error_propagation (store : Retrieve.VStore)
    (query : String) (k : Nat) (v : Option Retrieve.VStore) :
    (∀ e qs1 qe qs2, Retrieve.expand_query query = qs1 ++ qe :: qs2 →
        (∀ q1 ∈ qs1, ∃ hits,
          store q1 Retrieve.SEARCH_K_PER_QUERY Retrieve.MMR_LAMBDA = .ok hits) →
        store qe Retrieve.SEARCH_K_PER_QUERY Retrieve.MMR_LAMBDA = .error e →
        Retrieve.retrieve_documents store query k v = .error e) ∧
      (∀ pool, Retrieve.fetchAll store (Retrieve.expand_query query) = .ok pool →
        Retrieve.deduplicate_documents pool = [] →
        Retrieve.retrieve_documents store query k v = .ok []) := by
  constructor
  · intro e qs1 qe qs2 hsplit hok herr
    have hfetch : Retrieve.fetchAll store (Retrieve.expand_query query) = .error e := by
      rw [hsplit]
      exact fetchAll_error_of_prefix store e qs1 qe qs2 hok herr
    simp [Retrieve.retrieve_documents, hfetch]
  · intro pool hfetch hdedupe
    simp [Retrieve.retrieve_documents, hfetch, hdedupe, Retrieve.rerank_results,
      Retrieve.scoredPool, List.take_nil]

/-- C9 (witness): a store that always fails makes `retrieve_documents` fail
with the index error; a store that always returns no hits makes it return the
empty list. -/
theorem retrieve_documents_error_propagation_witness :
    Retrieve.retrieve_documents storeFail "What is Git?" 6 none =
        .error .indexUnavailable ∧
      Retrieve.retrieve_documents storeEmpty "What is Git?" 6 none = .ok [] := by
  constructor
  · exact (retrieve_documents_error_propagation storeFail "What is Git?" 6 none).1
      .indexUnavailable [] "What is Git?"
      ["Git version control system", "Git distributed version control"]
      (by decide) (by simp) rfl
  · exact (retrieve_documents_error_propagation storeEmpty "What is Git?" 6 none).2
      [] rfl rfl

/-- C10: the result of `retrieve_documents` does not depend on the
`vectorstore` argument the caller passes: line 140 overwrites that parameter
with the shared singleton handle before any use. -/
theorem retrieve_documents_ignores_vectorstore_param (load : Retrieve.VStore)
    (query : String) (k : Nat) (v1 v2 : Option Retrieve.VStore) :
    Retrieve.retrieve_documents load query k v1 =
      Retrieve.retrieve_documents load query k v2 := rfl

end GitRag
